import Mathlib

/-!
Verification development for the chess-engine evaluation orchestration layer
(`src/chess_engine_evaluator.py`).

The Board/Rules collaborator (python-chess) and the engine subprocess are
external per the specification; they are modelled as explicit interface
records (`Rules`, an analysis oracle inside `Evaluator`), and the
orchestration code of `ChessEngineEvaluator` is translated statement by
statement.  Python float arithmetic on pawn values (`centipawns / 100`) is
modelled with exact rationals; the two agree on every comparison and every
two-decimal rendering for all integer centipawn magnitudes that fit well
inside a double's 53-bit mantissa, which covers every value the thresholds
can interact with.
-/

namespace ChessEval

/-- Side to move (`chess.WHITE` / `chess.BLACK`). -/
inductive Color : Type
  | white
  | black
  deriving DecidableEq

/-- python-chess score payload: `Cp(v)` or `Mate(n)` (signed ply count). -/
inductive EScore : Type
  | cp (v : Int)
  | mate (n : Int)
  deriving DecidableEq

/-- python-chess negation of a score: `-Cp(v) = Cp(-v)`, `-Mate(n) = Mate(-n)`. -/
def EScore.neg : EScore → EScore
  | .cp v => .cp (-v)
  | .mate n => .mate (-n)

/-- python-chess `PovScore`: a relative score tagged with whose point of view
it is from.  `engine.analyse` wraps the engine's side-to-move-relative score
with `turn` equal to the analysed board's side to move. -/
structure PovScore : Type where
  relative : EScore
  turn : Color
  deriving DecidableEq

/-- python-chess `PovScore.white()`: the score seen from White's point of
view — the relative value unchanged when White is the point of view, its
negation when Black is. -/
def PovScore.white (s : PovScore) : EScore :=
  if s.turn = Color.white then s.relative else s.relative.neg

/-- Board/Rules collaborator interface (python-chess `Board` / `Move`),
specified at its boundary only: FEN parsing, side to move, FEN rendering,
membership in `legal_moves`, `push`, SAN rendering of a legal move, UCI
rendering, `Move.from_uci` (with the text of the `ValueError` it raises on
unparseable input). -/
structure Rules (B M : Type) : Type where
  parseFen : String → Option B
  turn : B → Color
  fen : B → String
  isLegal : B → M → Bool
  push : B → M → B
  san : B → M → String
  uci : M → String
  parseUci : String → Option M
  parseErrMsg : String → String

/-- The analysis info dictionary returned by `engine.analyse`: reached depth,
optional side-to-move-relative score, best line (possibly empty). -/
structure AnalysisInfo (M : Type) : Type where
  depth : Option Nat := none
  score : Option EScore := none
  pv : List M := []

/-- `chess.engine.Limit`: exactly one of a time budget or a search depth. -/
inductive ELimit : Type
  | time (t : ℚ)
  | depth (d : Nat)
  deriving DecidableEq

/-- `ChessEngineEvaluator` state: default depth and the optional engine
handle.  A started handle is modelled as the analysis oracle the subprocess
implements (`analyse : board → limit → info`). -/
structure Evaluator (B M : Type) : Type where
  depth : Nat
  engine : Option (B → ELimit → AnalysisInfo M)

/-- Failures `evaluate_position` can raise: the `RuntimeError` for an
unstarted engine (spec: `EngineNotStarted`) and the `ValueError` from
`chess.Board(fen)` on a malformed descriptor (spec: `InvalidDescriptor`). -/
inductive EvalErr : Type
  | engineNotStarted
  | invalidDescriptor
  deriving DecidableEq

/-- The result dictionary of `evaluate_position`.  Keys that the code only
sometimes inserts are `Option` fields defaulting to `none` (absent). -/
structure EvalResult : Type where
  fen : String
  depth : Option Nat
  score : Option Int := none
  mate : Option Int := none
  evaluation_text : Option String := none
  best_move : Option String := none
  pv : Option (List String) := none
  pv_san : Option (List String) := none
  deriving DecidableEq

/-- Lines 99-102: analysis-limit selection.  `if time_limit:` is Python
truthiness (`None` and `0.0` both falsy), and `depth or self.depth` falls
back on `None` and `0` alike. -/
def resolveLimit (timeLimit : Option ℚ) (depth : Option Nat) (defaultDepth : Nat) : ELimit :=
  match timeLimit with
  | some t => if t ≠ 0 then ELimit.time t else ELimit.depth (depthOr depth defaultDepth)
  | none => ELimit.depth (depthOr depth defaultDepth)
where
  /-- Python `depth or self.depth` for `depth : Optional[int]`. -/
  depthOr : Option Nat → Nat → Nat
    | some d, dd => if d ≠ 0 then d else dd
    | none, dd => dd

/-- Line 268 etc.: `side = "white" if pawns > 0 else "black"` with
`pawns = centipawns / 100`. -/
def sideName (centipawns : Int) : String :=
  if (0 : ℚ) < (centipawns : ℚ) / 100 then "white" else "black"

/-- Rendering of `f"{pawns:+.2f}"` for `pawns = centipawns / 100`: sign,
integer pawns, two fractional digits.  Exact for all realistic magnitudes
(see the module comment). -/
def fmtPawns (centipawns : Int) : String :=
  let sign := if centipawns < 0 then "-" else "+"
  let n := centipawns.natAbs
  let frac := n % 100
  sign ++ toString (n / 100) ++ "." ++ (if frac < 10 then "0" ++ toString frac else toString frac)

/-- Lines 252-275: `_format_evaluation`, the centipawn-to-text classifier.
`pawns = centipawns / 100`; branch thresholds 0.5, 1.5, 3.0 on `abs(pawns)`. -/
def format_evaluation (centipawns : Int) : String :=
  let pawns : ℚ := (centipawns : ℚ) / 100
  if |pawns| < 1/2 then "Equal position"
  else if |pawns| < 3/2 then
    "Slight advantage for " ++ sideName centipawns ++ " (" ++ fmtPawns centipawns ++ ")"
  else if |pawns| < 3 then
    "Clear advantage for " ++ sideName centipawns ++ " (" ++ fmtPawns centipawns ++ ")"
  else
    "Winning for " ++ sideName centipawns ++ " (" ++ fmtPawns centipawns ++ ")"

/-- Line 125: the mate evaluation text. -/
def mateTextOf (mateIn : Int) : String :=
  "Mate in " ++ toString mateIn.natAbs ++ (if 0 < mateIn then " for white" else " for black")

/-- Lines 116-119: the score transform the code applies before storing —
`-score.white()` when Black is to move, `score.white()` otherwise. -/
def normalize_score (ps : PovScore) (turn : Color) : EScore :=
  if turn = Color.black then (PovScore.white ps).neg else PovScore.white ps

/-- Modelled from the spec: the Score Normalizer's documented two-case
transform — "if perspective is Black, negate the raw value (both for
centipawn and mate-ply forms) to obtain the White-relative value; otherwise
pass through".  Stated here only to compare with `normalize_score`, the
transform the code actually performs. -/
def specNormalizeScore (raw : EScore) (turn : Color) : EScore :=
  if turn = Color.black then raw.neg else raw

/-- Lines 140-145: the SAN replay loop body — for each move, render SAN and
push if legal (python-chess raises from `san` on an illegal move, caught by
the `except`), else stop. -/
def pvSanLoop {B M : Type} (R : Rules B M) : B → List M → List String
  | _, [] => []
  | b, m :: ms =>
    if R.isLegal b m then R.san b m :: pvSanLoop R (R.push b m) ms else []

/-- Lines 138-146: `pv_san` — the replay loop applied to `info['pv'][:10]`. -/
def pvSanList {B M : Type} (R : Rules B M) (b : B) (pv : List M) : List String :=
  pvSanLoop R b (pv.take 10)

/-- Every prefix move of the line is legal in the replay state it is played
from. -/
def allLegalReplay {B M : Type} (R : Rules B M) : B → List M → Bool
  | _, [] => true
  | b, m :: ms => R.isLegal b m && allLegalReplay R (R.push b m) ms

/-- Lines 107-131: build the result record from the analysis info's score
(`result = {'fen':…, 'depth':…}`, then the score/mate/evaluation_text keys
when a score is present). -/
def scoreFields (base : EvalResult) (os : Option EScore) (turn : Color) : EvalResult :=
  match os with
  | none => base
  | some raw =>
    match normalize_score ⟨raw, turn⟩ turn with
    | .mate mateIn =>
      { base with mate := some mateIn, score := none,
                  evaluation_text := some (mateTextOf mateIn) }
    | .cp cpScore =>
      { base with score := some cpScore, mate := none,
                  evaluation_text := some (format_evaluation cpScore) }

/-- Lines 133-146: the principal-variation keys — only added when the engine
returned a non-empty line; the long-notation `pv` is the whole line, the
algebraic `pv_san` the capped, truncating replay. -/
def pvFields {B M : Type} (R : Rules B M) (b : B) (r : EvalResult) (pv : List M) : EvalResult :=
  match pv with
  | [] => r
  | m :: _ =>
    { r with best_move := some (R.uci m),
             pv := some (pv.map R.uci),
             pv_san := some (pvSanList R b pv) }

/-- Lines 71-148: `evaluate_position`.  Engine check, FEN parse, limit
resolution, one `analyse` exchange, score normalization, PV decoding. -/
def evaluate_position {B M : Type} (R : Rules B M) (ev : Evaluator B M)
    (fen : String) (depth : Option Nat) (timeLimit : Option ℚ) :
    Except EvalErr EvalResult :=
  match ev.engine with
  | none => Except.error EvalErr.engineNotStarted
  | some eng =>
    match R.parseFen fen with
    | none => Except.error EvalErr.invalidDescriptor
    | some board =>
      let limit := resolveLimit timeLimit depth ev.depth
      let info := eng board limit
      let base : EvalResult := { fen := fen, depth := info.depth }
      Except.ok (pvFields R board (scoreFields base info.score (R.turn board)) info.pv)

/-- One step of the sequence loop (lines 176-179): `Move.from_uci` (raising
on bad input), the `legal_moves` membership check (raising on failure), then
`push`.  `none` exactly when the step would break the Python loop. -/
def stepOk {B M : Type} (R : Rules B M) (b : B) (s : String) : Option B :=
  match R.parseUci s with
  | none => none
  | some m => if R.isLegal b m then some (R.push b m) else none

/-- Replay a whole move-string list from a board; `some` of the final board
when every step succeeds, `none` otherwise. -/
def replayAll {B M : Type} (R : Rules B M) : B → List String → Option B
  | b, [] => some b
  | b, s :: rest =>
    match stepOk R b s with
    | none => none
    | some b2 => replayAll R b2 rest

/-- Lines 174-183: the per-move loop of `evaluate_moves_sequence` — parse,
legality check, push, evaluate the new position's FEN; any `ValueError` is
caught and breaks the loop.  `evalFn` stands for
`self.evaluate_position(·, depth=depth)` under a started engine, which on
the internally generated FENs returns normally. -/
def seqLoop {B M : Type} (R : Rules B M) (evalFn : String → EvalResult) :
    B → List String → List EvalResult
  | _, [] => []
  | b, s :: rest =>
    match R.parseUci s with
    | none => []
    | some m =>
      if R.isLegal b m then
        evalFn (R.fen (R.push b m)) :: seqLoop R evalFn (R.push b m) rest
      else []

/-- Lines 150-185: `evaluate_moves_sequence` — evaluate the starting
position first, then walk the move list.  The starting board (line 167,
`chess.Board(starting_fen) if starting_fen else chess.Board()`) is supplied
already parsed. -/
def evaluate_moves_sequence {B M : Type} (R : Rules B M) (evalFn : String → EvalResult)
    (b0 : B) (moves : List String) : List EvalResult :=
  evalFn (R.fen b0) :: seqLoop R evalFn b0 moves

/-- Lines 238-242: flip the evaluation to the origin mover's perspective —
negate `score` and `mate` when present. -/
def flipEval (e : EvalResult) : EvalResult :=
  { e with score := e.score.map (fun v => -v), mate := e.mate.map (fun v => -v) }

/-- A value of the `compare_moves` result mapping: an evaluation dict, the
`{'error': 'Illegal move'}` marker, or the `{'error': str(e)}` marker carrying
the `Move.from_uci` failure text. -/
inductive CmpEntry : Type
  | ok (e : EvalResult)
  | illegalMove
  | invalidUci (msg : String)
  deriving DecidableEq

/-- The comparator's working board: python-chess keeps a move stack on a
mutable board, `push` appends to it and `pop` removes the last entry.  The
current position is the root with the stack replayed over it. -/
structure WBoard (B M : Type) : Type where
  root : B
  stack : List M
  deriving DecidableEq

/-- Current position of a working board. -/
def wcur {B M : Type} (R : Rules B M) (w : WBoard B M) : B :=
  w.stack.foldl R.push w.root

/-- `board.push(move)`. -/
def wpush {B M : Type} (w : WBoard B M) (m : M) : WBoard B M :=
  { w with stack := w.stack ++ [m] }

/-- `board.pop()` (the returned move is discarded by the caller). -/
def wpop {B M : Type} (w : WBoard B M) : WBoard B M :=
  { w with stack := w.stack.dropLast }

/-- Lines 227-248: the candidate loop of `compare_moves` — parse (recording
the `ValueError` text on failure), legality check (recording
`'Illegal move'`), push, evaluate the pushed board's FEN, sign-flip, record,
pop.  Returns the ordered result entries and the final working board. -/
def compareMovesLoop {B M : Type} (R : Rules B M) (evalFn : String → EvalResult) :
    WBoard B M → List String → List (String × CmpEntry) × WBoard B M
  | w, [] => ([], w)
  | w, s :: rest =>
    match R.parseUci s with
    | none =>
      let p := compareMovesLoop R evalFn w rest
      ((s, CmpEntry.invalidUci (R.parseErrMsg s)) :: p.1, p.2)
    | some m =>
      if R.isLegal (wcur R w) m then
        let w1 := wpush w m
        let e := flipEval (evalFn (R.fen (wcur R w1)))
        let w2 := wpop w1
        let p := compareMovesLoop R evalFn w2 rest
        ((s, CmpEntry.ok e) :: p.1, p.2)
      else
        let p := compareMovesLoop R evalFn w rest
        ((s, CmpEntry.illegalMove) :: p.1, p.2)

/-- Lines 207-250: `compare_moves`.  The origin board (line 224,
`chess.Board(fen)`) is supplied already parsed and starts with an empty move
stack; `evalFn` stands for `self.evaluate_position(·, depth=depth)`. -/
def compare_moves {B M : Type} (R : Rules B M) (evalFn : String → EvalResult)
    (b : B) (moves : List String) : List (String × CmpEntry) × WBoard B M :=
  compareMovesLoop R evalFn ⟨b, []⟩ moves

/-- The per-candidate entry `compare_moves` records, as a function of the
origin position. -/
def cmpEntry {B M : Type} (R : Rules B M) (evalFn : String → EvalResult)
    (b : B) (s : String) : CmpEntry :=
  match R.parseUci s with
  | none => CmpEntry.invalidUci (R.parseErrMsg s)
  | some m =>
    if R.isLegal b m then CmpEntry.ok (flipEval (evalFn (R.fen (R.push b m))))
    else CmpEntry.illegalMove

section Toy

/-- A small executable instance of the Board/Rules collaborator used to
evaluate the development on concrete inputs: boards are the move lists
played so far, moves are numbers, a move is legal when below 10, the string
"bad" is unparseable and other strings parse to their length, the
descriptor "nofen" is malformed and "b" denotes a one-move board (Black to
move). -/
def toyRules : Rules (List Nat) Nat where
  parseFen := fun s => if s = "nofen" then none else if s = "b" then some [1] else some []
  turn := fun b => if b.length % 2 = 0 then Color.white else Color.black
  fen := fun b => "p" ++ toString b.length
  isLegal := fun _ m => m < 10
  push := fun b m => b ++ [m]
  san := fun _ m => "s" ++ toString m
  uci := fun m => "u" ++ toString m
  parseUci := fun s => if s = "bad" then none else some s.length
  parseErrMsg := fun s => "invalid uci: " ++ s

/-- A concrete evaluation oracle: every FEN evaluates to a fixed record. -/
def toyEval : String → EvalResult :=
  fun f => { fen := f, depth := some 1, score := some 33, mate := none }

/-- Engine oracle reporting a centipawn score of +100 and no line. -/
def toyEngCp : List Nat → ELimit → AnalysisInfo Nat :=
  fun _ _ => { depth := some 3, score := some (EScore.cp 100), pv := [] }

/-- Started evaluator wrapping `toyEngCp`. -/
def toyEvCp : Evaluator (List Nat) Nat :=
  { depth := 20, engine := some toyEngCp }

/-- Engine oracle reporting an 11-move best line, every move legal. -/
def toyEngPv : List Nat → ELimit → AnalysisInfo Nat :=
  fun _ _ => { depth := some 3, score := none, pv := List.replicate 11 1 }

/-- Started evaluator wrapping `toyEngPv`. -/
def toyEvPv : Evaluator (List Nat) Nat :=
  { depth := 20, engine := some toyEngPv }

/-- An evaluator that was never started. -/
def toyEvNone : Evaluator (List Nat) Nat :=
  { depth := 20, engine := none }

end Toy

/-! ### Helper lemmas -/

theorem abs_cp_div (cp : Int) : |(cp : ℚ) / 100| = (cp.natAbs : ℚ) / 100 := by
  rw [abs_div, abs_of_nonneg (by norm_num : (0:ℚ) ≤ 100), ← Int.cast_abs, Int.abs_eq_natAbs,
    Int.cast_natCast]

theorem pvSanLoop_length_le {B M : Type} (R : Rules B M) :
    ∀ (ms : List M) (b : B), (pvSanLoop R b ms).length ≤ ms.length := by
  intro ms
  induction ms with
  | nil => intro b; simp [pvSanLoop]
  | cons m rest ih =>
    intro b
    by_cases h : R.isLegal b m
    · simp only [pvSanLoop, h, if_true, List.length_cons]
      exact Nat.succ_le_succ (ih _)
    · simp [pvSanLoop, h]

theorem pvSanLoop_length_eq_iff {B M : Type} (R : Rules B M) :
    ∀ (ms : List M) (b : B),
      ((pvSanLoop R b ms).length = ms.length) ↔ allLegalReplay R b ms = true := by
  intro ms
  induction ms with
  | nil => intro b; simp [pvSanLoop, allLegalReplay]
  | cons m rest ih =>
    intro b
    by_cases h : R.isLegal b m
    · simp [pvSanLoop, allLegalReplay, h, ih]
    · simp only [pvSanLoop, h, if_false, allLegalReplay, Bool.false_and, List.length_nil,
        List.length_cons]
      constructor
      · intro he; exact absurd he.symm (Nat.succ_ne_zero rest.length)
      · intro he; cases he

theorem pvSanList_length_le {B M : Type} (R : Rules B M) (b : B) (pv : List M) :
    (pvSanList R b pv).length ≤ pv.length := by
  have h1 := pvSanLoop_length_le R (pv.take 10) b
  have h2 : (pv.take 10).length = min 10 pv.length := List.length_take _ _
  rw [pvSanList]
  omega

theorem pvSanList_length_lt_iff {B M : Type} (R : Rules B M) (b : B) (pv : List M) :
    ((pvSanList R b pv).length < pv.length) ↔
      (10 < pv.length ∨ allLegalReplay R b (pv.take 10) = false) := by
  have hle := pvSanLoop_length_le R (pv.take 10) b
  have htk : (pv.take 10).length = min 10 pv.length := List.length_take _ _
  constructor
  · intro h
    by_cases hA : allLegalReplay R b (pv.take 10) = true
    · left
      have heq := (pvSanLoop_length_eq_iff R (pv.take 10) b).mpr hA
      rw [pvSanList] at h
      omega
    · right
      simpa using hA
  · intro h
    rcases h with h | h
    · rw [pvSanList]; omega
    · have hne : (pvSanLoop R b (pv.take 10)).length ≠ (pv.take 10).length := by
        intro he
        rw [pvSanLoop_length_eq_iff] at he
        rw [he] at h
        cases h
      rw [pvSanList]
      omega

theorem scoreFields_pv (base : EvalResult) (os : Option EScore) (turn : Color) :
    (scoreFields base os turn).pv = base.pv := by
  rcases os with _ | raw
  · rfl
  · rcases h : normalize_score ⟨raw, turn⟩ turn with v | n <;> simp [scoreFields, h]

theorem scoreFields_pv_san (base : EvalResult) (os : Option EScore) (turn : Color) :
    (scoreFields base os turn).pv_san = base.pv_san := by
  rcases os with _ | raw
  · rfl
  · rcases h : normalize_score ⟨raw, turn⟩ turn with v | n <;> simp [scoreFields, h]

theorem evaluate_position_ok {B M : Type} (R : Rules B M) (ev : Evaluator B M)
    (eng : B → ELimit → AnalysisInfo M) (f : String) (b : B)
    (d : Option Nat) (t : Option ℚ)
    (hEng : ev.engine = some eng) (hFen : R.parseFen f = some b) :
    evaluate_position R ev f d t
      = Except.ok (pvFields R b
          (scoreFields { fen := f, depth := (eng b (resolveLimit t d ev.depth)).depth }
            (eng b (resolveLimit t d ev.depth)).score (R.turn b))
          (eng b (resolveLimit t d ev.depth)).pv) := by
  simp [evaluate_position, hEng, hFen]

theorem wpop_wpush {B M : Type} (w : WBoard B M) (m : M) : wpop (wpush w m) = w := by
  simp [wpop, wpush]

theorem wcur_wpush {B M : Type} (R : Rules B M) (w : WBoard B M) (m : M) :
    wcur R (wpush w m) = R.push (wcur R w) m := by
  simp [wcur, wpush, List.foldl_append]

theorem compareMovesLoop_eq {B M : Type} (R : Rules B M) (evalFn : String → EvalResult) :
    ∀ (ms : List String) (w : WBoard B M),
      compareMovesLoop R evalFn w ms
        = (ms.map (fun s => (s, cmpEntry R evalFn (wcur R w) s)), w) := by
  intro ms
  induction ms with
  | nil => intro w; rfl
  | cons s rest ih =>
    intro w
    cases hp : R.parseUci s with
    | none =>
      simp [compareMovesLoop, hp, ih w, cmpEntry]
    | some m =>
      by_cases hl : R.isLegal (wcur R w) m
      · simp [compareMovesLoop, hp, hl, cmpEntry, wpop_wpush, wcur_wpush, ih]
      · simp [compareMovesLoop, hp, hl, cmpEntry, ih w]

theorem seqLoop_stepOk {B M : Type} (R : Rules B M) (evalFn : String → EvalResult)
    (b : B) (s : String) (rest : List String) :
    seqLoop R evalFn b (s :: rest)
      = match stepOk R b s with
        | none => []
        | some b2 => evalFn (R.fen b2) :: seqLoop R evalFn b2 rest := by
  cases hp : R.parseUci s with
  | none => simp [seqLoop, stepOk, hp]
  | some m =>
    by_cases hl : R.isLegal b m <;> simp [seqLoop, stepOk, hp, hl]

theorem seqLoop_length_replay {B M : Type} (R : Rules B M) (evalFn : String → EvalResult) :
    ∀ (ms : List String) (b bf : B), replayAll R b ms = some bf →
      (seqLoop R evalFn b ms).length = ms.length := by
  intro ms
  induction ms with
  | nil => intro b bf _; rfl
  | cons s rest ih =>
    intro b bf h
    rw [replayAll] at h
    cases hs : stepOk R b s with
    | none => rw [hs] at h; cases h
    | some b2 =>
      rw [hs] at h
      rw [seqLoop_stepOk, hs]
      simpa using ih b2 bf h

theorem seqLoop_length_fail {B M : Type} (R : Rules B M) (evalFn : String → EvalResult) :
    ∀ (ms : List String) (k : Nat) (hk : k < ms.length) (b bk : B),
      replayAll R b (ms.take k) = some bk → stepOk R bk (ms.get ⟨k, hk⟩) = none →
      (seqLoop R evalFn b ms).length = k := by
  intro ms
  induction ms with
  | nil => intro k hk; cases hk
  | cons s rest ih =>
    intro k hk b bk h1 h2
    cases k with
    | zero =>
      simp only [List.take_zero, replayAll] at h1
      injection h1 with hb
      subst hb
      simp only [List.get] at h2
      rw [seqLoop_stepOk, h2]
      rfl
    | succ k0 =>
      simp only [List.take_succ_cons, replayAll] at h1
      cases hs : stepOk R b s with
      | none => rw [hs] at h1; cases h1
      | some b2 =>
        rw [hs] at h1
        rw [seqLoop_stepOk, hs]
        simp only [List.length_cons]
        have hk0 : k0 < rest.length := Nat.lt_of_succ_lt_succ hk
        have := ih k0 hk0 b2 bk h1 (by simpa using h2)
        omega

/-! ### Claim theorems -/

/-- C1: the spec says a raw side-to-move-relative score with Black to move is
negated to obtain the stored White-relative value.  The code instead computes
`-score.white()` — negating the value the library has *already* converted to
White's point of view — so with Black to move the stored value equals the raw
relative value again, unchanged; it also equals the value stored with White
to move for the same raw score, refuting the perspective-flip invariant.
`evaluate_position` on a Black-to-move position whose engine-reported
relative score is +100 centipawns stores +100, where the documented
White-relative value is −100. -/
theorem score_normalization_not_flipped :
  normalize_score ⟨EScore.cp 100, Color.black⟩ Color.black = EScore.cp 100
  ∧ specNormalizeScore (EScore.cp 100) Color.black = EScore.cp (-100)
  ∧ normalize_score ⟨EScore.cp 100, Color.black⟩ Color.black
      = normalize_score ⟨EScore.cp 100, Color.white⟩ Color.white
  ∧ (evaluate_position toyRules toyEvCp "b" none none).toOption.map (fun r => r.score)
      = some (some 100) :=
  ⟨by decide, by decide, by decide, rfl⟩

/-- C3: classification of a White-relative centipawn score uses exact
half-open thresholds on `abs(centipawns / 100)` — `< 0.5` equal, `[0.5, 1.5)`
slight, `[1.5, 3.0)` clear, `≥ 3.0` winning — with the side named "white"
exactly when the value is positive, and the boundary instances 50/49,
150/149, 300/299 land as the spec states. -/
theorem format_evaluation_thresholds :
  (∀ cp : Int, |(cp : ℚ) / 100| < 1/2 → format_evaluation cp = "Equal position")
  ∧ (∀ cp : Int, 1/2 ≤ |(cp : ℚ) / 100| → |(cp : ℚ) / 100| < 3/2 →
      format_evaluation cp
        = "Slight advantage for " ++ sideName cp ++ " (" ++ fmtPawns cp ++ ")")
  ∧ (∀ cp : Int, 3/2 ≤ |(cp : ℚ) / 100| → |(cp : ℚ) / 100| < 3 →
      format_evaluation cp
        = "Clear advantage for " ++ sideName cp ++ " (" ++ fmtPawns cp ++ ")")
  ∧ (∀ cp : Int, 3 ≤ |(cp : ℚ) / 100| →
      format_evaluation cp
        = "Winning for " ++ sideName cp ++ " (" ++ fmtPawns cp ++ ")")
  ∧ (∀ cp : Int, sideName cp = if 0 < cp then "white" else "black")
  ∧ format_evaluation 50 = "Slight advantage for white (+0.50)"
  ∧ format_evaluation 49 = "Equal position"
  ∧ format_evaluation 150 = "Clear advantage for white (+1.50)"
  ∧ format_evaluation 149 = "Slight advantage for white (+1.49)"
  ∧ format_evaluation 300 = "Winning for white (+3.00)"
  ∧ format_evaluation 299 = "Clear advantage for white (+2.99)" := by
  refine ⟨?_, ?_, ?_, ?_, ?_, ?_, ?_, ?_, ?_, ?_, ?_⟩
  · intro cp h
    simp only [format_evaluation]
    rw [if_pos h]
  · intro cp h1 h2
    simp only [format_evaluation]
    rw [if_neg (not_lt.mpr h1), if_pos h2]
  · intro cp h1 h2
    simp only [format_evaluation]
    rw [if_neg (by linarith), if_neg (not_lt.mpr h1), if_pos h2]
  · intro cp h1
    simp only [format_evaluation]
    rw [if_neg (by linarith), if_neg (by linarith), if_neg (not_lt.mpr h1)]
  · intro cp
    by_cases h : 0 < cp
    · rw [if_pos h, sideName, if_pos (by positivity)]
    · rw [if_neg h, sideName, if_neg ?_]
      have hcp : (cp : ℚ) ≤ 0 := by exact_mod_cast not_lt.mp h
      intro hlt
      have : (0:ℚ) < cp := by
        have h100 : (0:ℚ) < 100 := by norm_num
        calc (0:ℚ) = 0 * 100 := by ring
        _ < (cp : ℚ) / 100 * 100 := by exact mul_lt_mul_of_pos_right hlt h100
        _ = cp := by field_simp
      linarith
  · simp only [format_evaluation, abs_cp_div]; norm_num [sideName, fmtPawns]; rfl
  · simp only [format_evaluation, abs_cp_div]; norm_num
  · simp only [format_evaluation, abs_cp_div]; norm_num [sideName, fmtPawns]; rfl
  · simp only [format_evaluation, abs_cp_div]; norm_num [sideName, fmtPawns]; rfl
  · simp only [format_evaluation, abs_cp_div]; norm_num [sideName, fmtPawns]; rfl
  · simp only [format_evaluation, abs_cp_div]; norm_num [sideName, fmtPawns]; rfl

/-- Witness for C3: the slight-advantage case applied at −149 centipawns,
with both interval hypotheses discharged concretely. -/
theorem format_evaluation_thresholds_witness :
    format_evaluation (-149) = "Slight advantage for black (-1.49)" := by
  have h := format_evaluation_thresholds.2.1 (-149)
    (by rw [abs_cp_div]; norm_num) (by rw [abs_cp_div]; norm_num)
  rw [h]
  norm_num [sideName, fmtPawns]
  rfl

/-- C8: with no started engine session, `evaluate_position` fails with the
engine-not-started error for every input, before touching anything else — in
particular it never starts an engine itself. -/
theorem evaluate_requires_engine {B M : Type} (R : Rules B M) (ev : Evaluator B M)
    (f : String) (d : Option Nat) (t : Option ℚ) (h : ev.engine = none) :
    evaluate_position R ev f d t = Except.error EvalErr.engineNotStarted := by
  simp [evaluate_position, h]

/-- Witness for C8: the unstarted toy evaluator fails as required. -/
theorem evaluate_requires_engine_witness :
    evaluate_position toyRules toyEvNone "p0" none none
      = Except.error EvalErr.engineNotStarted :=
  evaluate_requires_engine toyRules toyEvNone "p0" none none rfl

/-- C9: a (positive) explicit time budget wins over any explicit depth — the
resolved limit carries the time, not the depth — and with neither supplied
the session's default depth is used. -/
theorem limit_resolution :
  (∀ (t : ℚ) (dp : Option Nat) (dd : Nat), 0 < t →
      resolveLimit (some t) dp dd = ELimit.time t)
  ∧ (∀ dd : Nat, resolveLimit none none dd = ELimit.depth dd) := by
  constructor
  · intro t dp dd ht
    simp [resolveLimit, ne_of_gt ht]
  · intro dd; rfl

/-- Witness for C9: a 2-second budget beats an explicit depth of 7. -/
theorem limit_resolution_witness :
    resolveLimit (some 2) (some 7) 20 = ELimit.time 2 :=
  limit_resolution.1 2 (some 7) 20 (by norm_num)

/-- C10: limit selection is by Python truthiness — a supplied time limit of
exactly 0 behaves as if no time limit were supplied (a depth limit is used),
and a supplied depth of 0 behaves as if no depth were supplied (the default
depth is used). -/
theorem limit_truthiness :
  (∀ (dp : Option Nat) (dd : Nat), resolveLimit (some 0) dp dd = resolveLimit none dp dd)
  ∧ (∀ (tl : Option ℚ) (dd : Nat), resolveLimit tl (some 0) dd = resolveLimit tl none dd)
  ∧ resolveLimit (some 0) (some 7) 20 = ELimit.depth 7
  ∧ resolveLimit none (some 0) 20 = ELimit.depth 20 := by
  have hdep : ∀ dd : Nat, resolveLimit.depthOr (some 0) dd = resolveLimit.depthOr none dd := by
    intro dd; simp [resolveLimit.depthOr]
  refine ⟨?_, ?_, ?_, ?_⟩
  · intro dp dd
    simp [resolveLimit]
  · intro tl dd
    cases tl with
    | none => simp [resolveLimit, hdep]
    | some t =>
      by_cases ht : t = 0 <;> simp [resolveLimit, ht, hdep]
  · simp [resolveLimit, resolveLimit.depthOr]
  · simp [resolveLimit, resolveLimit.depthOr]

/-- C2 (amended): for every engine-reported best line, the algebraic
rendering is never longer than the long-notation list, the long-notation
list returned is always the untruncated original engine line, and the
algebraic list is strictly shorter exactly when the line exceeds the
ten-move rendering cap or a move among the first ten is illegal in the
replay state reached mid-replay. -/
theorem pv_decoder_truncation {B M : Type} (R : Rules B M) (ev : Evaluator B M)
    (eng : B → ELimit → AnalysisInfo M) (f : String) (b : B)
    (d : Option Nat) (t : Option ℚ) (info : AnalysisInfo M)
    (hEng : ev.engine = some eng) (hFen : R.parseFen f = some b)
    (hinfo : info = eng b (resolveLimit t d ev.depth)) (hpv : info.pv ≠ []) :
    (evaluate_position R ev f d t).toOption.map (fun r => r.pv)
        = some (some (info.pv.map R.uci))
    ∧ (evaluate_position R ev f d t).toOption.map (fun r => r.pv_san)
        = some (some (pvSanList R b info.pv))
    ∧ (pvSanList R b info.pv).length ≤ (info.pv.map R.uci).length
    ∧ ((pvSanList R b info.pv).length < (info.pv.map R.uci).length ↔
        (10 < info.pv.length ∨ allLegalReplay R b (info.pv.take 10) = false)) := by
  have hok := evaluate_position_ok R ev eng f b d t hEng hFen
  rw [← hinfo] at hok
  rcases hpv2 : info.pv with _ | ⟨m, rest⟩
  · exact absurd hpv2 hpv
  · rw [hpv2] at hok
    refine ⟨?_, ?_, ?_, ?_⟩
    · rw [hok]; rfl
    · rw [hok]; rfl
    · simpa using pvSanList_length_le R b (m :: rest)
    · rw [List.length_map]
      exact pvSanList_length_lt_iff R b (m :: rest)

/-- Witness for C2: all hypotheses discharged at the toy instance whose
engine reports an 11-move line. -/
theorem pv_decoder_truncation_witness :
    (evaluate_position toyRules toyEvPv "start" none none).toOption.map (fun r => r.pv_san)
      = some (some (pvSanList toyRules [] (List.replicate 11 1))) := by
  have h := pv_decoder_truncation toyRules toyEvPv toyEngPv "start" [] none none
    { depth := some 3, score := none, pv := List.replicate 11 1 } rfl (by decide) rfl
    (by decide)
  exact h.2.1

/-- Counterexample for C2 as stated: an 11-move engine line that is legal at
every replay step still yields a strictly shorter algebraic rendering (10
entries against 11), so "strictly shorter exactly when an illegal move is
encountered mid-replay, and never otherwise" fails. -/
theorem pv_decoder_truncation_counterexample :
    allLegalReplay toyRules [] (List.replicate 11 1) = true
    ∧ (evaluate_position toyRules toyEvPv "start" none none).toOption.map
        (fun r => (r.pv_san.map List.length, r.pv.map List.length))
      = some (some 10, some 11) := by
  constructor
  · decide
  · rfl

/-- C4: the sequence evaluator always evaluates the starting position first;
a fully replayable move list of length N yields exactly N+1 evaluations, and
a first unparseable-or-illegal move at 0-based index k yields exactly k+1
evaluations (the function returns them rather than raising). -/
theorem sequence_evaluator_count {B M : Type} (R : Rules B M)
    (evalFn : String → EvalResult) (b0 : B) (moves : List String) :
    (evaluate_moves_sequence R evalFn b0 moves).head? = some (evalFn (R.fen b0))
    ∧ ((replayAll R b0 moves).isSome = true →
        (evaluate_moves_sequence R evalFn b0 moves).length = moves.length + 1)
    ∧ (∀ (k : Nat) (hk : k < moves.length) (bk : B),
        replayAll R b0 (moves.take k) = some bk →
        stepOk R bk (moves.get ⟨k, hk⟩) = none →
        (evaluate_moves_sequence R evalFn b0 moves).length = k + 1) := by
  refine ⟨rfl, ?_, ?_⟩
  · intro h
    rcases Option.isSome_iff_exists.mp h with ⟨bf, hbf⟩
    rw [evaluate_moves_sequence, List.length_cons,
      seqLoop_length_replay R evalFn moves b0 bf hbf]
  · intro k hk bk h1 h2
    rw [evaluate_moves_sequence, List.length_cons,
      seqLoop_length_fail R evalFn moves k hk b0 bk h1 h2]

/-- Witness for C4: a two-move legal list yields three evaluations; a list
whose first move is unparseable yields one. -/
theorem sequence_evaluator_count_witness :
    (evaluate_moves_sequence toyRules toyEval [] ["ab", "cd"]).length = 3
    ∧ (evaluate_moves_sequence toyRules toyEval [] ["bad", "ab"]).length = 1 := by
  constructor
  · exact (sequence_evaluator_count toyRules toyEval [] ["ab", "cd"]).2.1 (by decide)
  · exact (sequence_evaluator_count toyRules toyEval [] ["bad", "ab"]).2.2 0 (by decide) []
      (by decide) (by decide)

/-- C5: after processing every candidate — legal, illegal or unparseable —
the comparator's working board is exactly the origin board with an empty
move stack again, and hence its position descriptor is unchanged. -/
theorem comparator_restores_origin {B M : Type} (R : Rules B M)
    (evalFn : String → EvalResult) (b : B) (moves : List String) :
    (compare_moves R evalFn b moves).2 = ⟨b, []⟩
    ∧ R.fen (wcur R (compare_moves R evalFn b moves).2) = R.fen b := by
  have h := compareMovesLoop_eq R evalFn moves ⟨b, []⟩
  rw [compare_moves, h]
  exact ⟨rfl, rfl⟩

/-- The comparator's result list is the per-candidate entry map over the
origin position. -/
theorem compare_moves_fst {B M : Type} (R : Rules B M)
    (evalFn : String → EvalResult) (b : B) (moves : List String) :
    (compare_moves R evalFn b moves).1
      = moves.map (fun x => (x, cmpEntry R evalFn b x)) := by
  rw [compare_moves, compareMovesLoop_eq]
  rfl

/-- C6: the entry the comparator records for a legal candidate move is the
evaluation of the position after the move with `score` and `mate` negated —
and the sign-flip is exactly `Option.map` negation on those two fields. -/
theorem comparator_sign_flip {B M : Type} (R : Rules B M)
    (evalFn : String → EvalResult) (b : B) (moves : List String) (s : String) (m : M)
    (hs : s ∈ moves) (hp : R.parseUci s = some m) (hl : R.isLegal b m = true) :
    ((s, CmpEntry.ok (flipEval (evalFn (R.fen (R.push b m)))))
        ∈ (compare_moves R evalFn b moves).1)
    ∧ (∀ e : EvalResult,
        (flipEval e).score = e.score.map (fun v => -v)
        ∧ (flipEval e).mate = e.mate.map (fun v => -v)) := by
  constructor
  · rw [compare_moves_fst]
    refine List.mem_map.mpr ⟨s, hs, ?_⟩
    simp [cmpEntry, hp, hl]
  · intro e
    exact ⟨rfl, rfl⟩

/-- Witness for C6: the legal candidate "ab" of the toy origin records the
negated evaluation of the successor position. -/
theorem comparator_sign_flip_witness :
    ("ab", CmpEntry.ok (flipEval (toyEval (toyRules.fen (toyRules.push [] 2)))))
      ∈ (compare_moves toyRules toyEval [] ["ab"]).1 :=
  (comparator_sign_flip toyRules toyEval [] ["ab"] "ab" 2 (by decide) (by decide)
    (by decide)).1

/-- C7: every candidate gets exactly one entry, in order — so an illegal or
unparseable candidate never aborts the call — with a syntactically valid but
illegal candidate recorded under the illegal-move marker and an unparseable
candidate recorded under the invalid-notation marker carrying the parse
failure text. -/
theorem comparator_error_markers {B M : Type} (R : Rules B M)
    (evalFn : String → EvalResult) (b : B) (moves : List String) :
    ((compare_moves R evalFn b moves).1.map Prod.fst = moves)
    ∧ (∀ s m, s ∈ moves → R.parseUci s = some m → R.isLegal b m = false →
        (s, CmpEntry.illegalMove) ∈ (compare_moves R evalFn b moves).1)
    ∧ (∀ s, s ∈ moves → R.parseUci s = none →
        (s, CmpEntry.invalidUci (R.parseErrMsg s)) ∈ (compare_moves R evalFn b moves).1) := by
  refine ⟨?_, ?_, ?_⟩
  · rw [compare_moves_fst]
    simp only [List.map_map]
    exact List.map_id moves
  · intro s m hs hp hl
    rw [compare_moves_fst]
    refine List.mem_map.mpr ⟨s, hs, ?_⟩
    simp [cmpEntry, hp, hl]
  · intro s hs hp
    rw [compare_moves_fst]
    refine List.mem_map.mpr ⟨s, hs, ?_⟩
    simp [cmpEntry, hp]

/-- Witness for C7: an illegal candidate, an unparseable candidate and a
legal candidate each receive their entry and all three keys survive. -/
theorem comparator_error_markers_witness :
    ((compare_moves toyRules toyEval [] ["abcdefghij", "bad", "ab"]).1.map Prod.fst
        = ["abcdefghij", "bad", "ab"])
    ∧ ("abcdefghij", CmpEntry.illegalMove)
        ∈ (compare_moves toyRules toyEval [] ["abcdefghij", "bad", "ab"]).1
    ∧ ("bad", CmpEntry.invalidUci (toyRules.parseErrMsg "bad"))
        ∈ (compare_moves toyRules toyEval [] ["abcdefghij", "bad", "ab"]).1 := by
  have h := comparator_error_markers toyRules toyEval [] ["abcdefghij", "bad", "ab"]
  exact ⟨h.1, h.2.1 "abcdefghij" 10 (by decide) (by decide) (by decide),
    h.2.2 "bad" (by decide) (by decide)⟩

end ChessEval
